import Mathlib

/-!
# MineFlow UI core: grid indexing, color mapping, statistics, render-set
construction and surface-mesh extraction

A shallow embedding of the algorithmic core of the MineFlow UI
(`src/lib/fileParser.ts` / `blockModel.ts`, `src/components/Visualization3D.tsx`,
and the Electron main-process solver glue), together with theorems settling
the specification's testable properties.

Numbers: the TypeScript code computes with JavaScript numbers.  Integer-valued
quantities (indices, dimensions, counts) are embedded as `Nat`/`Int`.  Where a
computation can leave the integers — the color mapper divides by a
possibly-zero magnitude, the statistics pass starts from `±Infinity` and
divides by a possibly-zero length — values are embedded as `JSNum`, rationals
extended with `NaN` and the two infinities, with the IEEE-754 propagation
rules JavaScript uses (decimal literals are idealized as exact rationals).
-/

namespace MineFlow

/-- The block model: dimensions and the per-block signed integer values,
ordered x-fastest, then y, then z (`types/mineflow.d.ts`). -/
structure BlockModel where
  nx : Nat
  ny : Nat
  nz : Nat
  values : List Int
deriving Repr, DecidableEq

/-- A coordinate triple, the return shape of `getBlockCoords`. -/
structure Coords where
  x : Nat
  y : Nat
  z : Nat
deriving Repr, DecidableEq

/-- `getBlockIndex` from `blockModel.ts`: blocks are ordered x-fastest,
then y, then z. -/
def getBlockIndex (x y z nx ny : Nat) : Nat :=
  x + y * nx + z * nx * ny

/-- `getBlockCoords` from `blockModel.ts` (`Math.floor` on nonnegative
arguments is `Nat` division). -/
def getBlockCoords (index nx ny : Nat) : Coords :=
  { x := index % nx
    y := index / nx % ny
    z := index / (nx * ny) }

/-- JavaScript numbers, idealized: exact rationals extended with `NaN` and the
two infinities.  Decimal literals of the source are embedded as the exact
rationals they denote. -/
inductive JSNum where
  | fin (q : ℚ)
  | posInf
  | negInf
  | nan
deriving Repr, DecidableEq

namespace JSNum

/-- JavaScript addition: `NaN` is absorbing, opposite infinities give `NaN`. -/
def add : JSNum → JSNum → JSNum
  | nan, _ => nan
  | _, nan => nan
  | posInf, negInf => nan
  | negInf, posInf => nan
  | posInf, _ => posInf
  | _, posInf => posInf
  | negInf, _ => negInf
  | _, negInf => negInf
  | fin a, fin b => fin (a + b)

/-- JavaScript negation. -/
def neg : JSNum → JSNum
  | nan => nan
  | posInf => negInf
  | negInf => posInf
  | fin a => fin (-a)

/-- JavaScript subtraction. -/
def sub (a b : JSNum) : JSNum := add a (neg b)

/-- JavaScript multiplication: `NaN` is absorbing, `Infinity * 0 = NaN`. -/
def mul : JSNum → JSNum → JSNum
  | nan, _ => nan
  | _, nan => nan
  | fin a, fin b => fin (a * b)
  | posInf, posInf => posInf
  | posInf, negInf => negInf
  | negInf, posInf => negInf
  | negInf, negInf => posInf
  | posInf, fin b => if b = 0 then nan else if 0 < b then posInf else negInf
  | fin a, posInf => if a = 0 then nan else if 0 < a then posInf else negInf
  | negInf, fin b => if b = 0 then nan else if 0 < b then negInf else posInf
  | fin a, negInf => if a = 0 then nan else if 0 < a then negInf else posInf

/-- JavaScript division.  A zero divisor is the non-negative zero `+0` (the
only zero the embedded code can produce as a divisor): `0/0 = NaN` and
`±a/0 = ±Infinity`. -/
def div : JSNum → JSNum → JSNum
  | nan, _ => nan
  | _, nan => nan
  | posInf, posInf => nan
  | posInf, negInf => nan
  | negInf, posInf => nan
  | negInf, negInf => nan
  | posInf, fin b => if 0 ≤ b then posInf else negInf
  | negInf, fin b => if 0 ≤ b then negInf else posInf
  | fin _, posInf => fin 0
  | fin _, negInf => fin 0
  | fin a, fin b =>
    if b = 0 then (if a = 0 then nan else if 0 < a then posInf else negInf)
    else fin (a / b)

/-- JavaScript `<`: every comparison with `NaN` is `false`. -/
def lt : JSNum → JSNum → Bool
  | nan, _ => false
  | _, nan => false
  | negInf, negInf => false
  | negInf, _ => true
  | _, negInf => false
  | posInf, _ => false
  | fin _, posInf => true
  | fin a, fin b => decide (a < b)

/-- JavaScript `Math.abs`. -/
def abs : JSNum → JSNum
  | nan => nan
  | posInf => posInf
  | negInf => posInf
  | fin a => fin |a|

/-- JavaScript `Math.min`: `NaN` if either argument is `NaN`. -/
def jmin : JSNum → JSNum → JSNum
  | nan, _ => nan
  | _, nan => nan
  | a, b => if lt a b then a else b

/-- JavaScript `Math.max`: `NaN` if either argument is `NaN`. -/
def jmax : JSNum → JSNum → JSNum
  | nan, _ => nan
  | _, nan => nan
  | a, b => if lt a b then b else a

instance : Add JSNum := ⟨add⟩
instance : Neg JSNum := ⟨neg⟩
instance : Sub JSNum := ⟨sub⟩
instance : Mul JSNum := ⟨mul⟩
instance : Div JSNum := ⟨div⟩

end JSNum

/-- Shorthand embedding of a numeric literal of the source. -/
def j (q : ℚ) : JSNum := JSNum.fin q

/-- An RGB color as built by `new THREE.Color(r, g, b)` (each channel a
JavaScript number). -/
structure Color where
  r : JSNum
  g : JSNum
  b : JSNum
deriving Repr, DecidableEq

/-- `valueToColor` from `blockModel.ts`: the diverging value→color scheme.
Negative normalized values map dark red → bright red → orange, non-negative
ones yellow → green → cyan → blue.  The source divides `value / maxAbsValue`
unconditionally. -/
def valueToColor (value maxAbsValue : JSNum) : Color :=
  let normalized := value / maxAbsValue
  if normalized.lt (j 0) then
    let t := normalized.abs
    if t.lt (j (1/2)) then
      let s := t * j 2
      { r := j (1/2) + s * j (1/2), g := j 0, b := j 0 }
    else
      let s := (t - j (1/2)) * j 2
      { r := j 1, g := s * j (2/5), b := j 0 }
  else
    let t := normalized
    if t.lt (j (33/100)) then
      let s := t / j (33/100)
      { r := j 1 - s * j (1/2), g := j 1, b := j 0 }
    else if t.lt (j (67/100)) then
      let s := (t - j (33/100)) / j (34/100)
      { r := j (1/2) - s * j (1/2), g := j 1, b := s * j 1 }
    else
      let s := (t - j (67/100)) / j (33/100)
      { r := j 0, g := j 1 - s * j (1/2), b := j 1 }

/-- The dark-red → bright-red branch formula (`t < 0.5`, negative half) of
`valueToColor`, as a function of the magnitude `t`. -/
def negSegLow (t : ℚ) : Color :=
  let s := j t * j 2
  { r := j (1/2) + s * j (1/2), g := j 0, b := j 0 }

/-- The bright-red → orange branch formula (`t ≥ 0.5`, negative half) of
`valueToColor`. -/
def negSegHigh (t : ℚ) : Color :=
  let s := (j t - j (1/2)) * j 2
  { r := j 1, g := s * j (2/5), b := j 0 }

/-- The yellow → green branch formula (`t < 0.33`, positive half) of
`valueToColor`. -/
def posSegLow (t : ℚ) : Color :=
  let s := j t / j (33/100)
  { r := j 1 - s * j (1/2), g := j 1, b := j 0 }

/-- The green → cyan branch formula (`0.33 ≤ t < 0.67`, positive half) of
`valueToColor`. -/
def posSegMid (t : ℚ) : Color :=
  let s := (j t - j (33/100)) / j (34/100)
  { r := j (1/2) - s * j (1/2), g := j 1, b := s * j 1 }

/-- The cyan → blue branch formula (`t ≥ 0.67`, positive half) of
`valueToColor`. -/
def posSegHigh (t : ℚ) : Color :=
  let s := (j t - j (67/100)) / j (33/100)
  { r := j 0, g := j 1 - s * j (1/2), b := j 1 }

/-- `isBoundaryBlock` from `blockModel.ts`: a mined block is on the excavation
surface iff it has at least one in-bounds unmined neighbor (6-connectivity).
The mined mask (`Uint8Array` of 0/1) is embedded as a `List Bool`; outside its
range `minedBlocks[index]` is `undefined`, which is falsy, embedded by the
default `false` of `getD`. -/
def isBoundaryBlock (index : Nat) (model : BlockModel) (minedBlocks : List Bool) : Bool :=
  if !(minedBlocks.getD index false) then false
  else
    let coords := getBlockCoords index model.nx model.ny
    let neighbors : List (Int × Int × Int) :=
      [((coords.x : Int) - 1, (coords.y : Int), (coords.z : Int)),
       ((coords.x : Int) + 1, (coords.y : Int), (coords.z : Int)),
       ((coords.x : Int), (coords.y : Int) - 1, (coords.z : Int)),
       ((coords.x : Int), (coords.y : Int) + 1, (coords.z : Int)),
       ((coords.x : Int), (coords.y : Int), (coords.z : Int) - 1),
       ((coords.x : Int), (coords.y : Int), (coords.z : Int) + 1)]
    neighbors.any fun nb =>
      if nb.1 < 0 ∨ nb.1 ≥ (model.nx : Int) ∨ nb.2.1 < 0 ∨ nb.2.1 ≥ (model.ny : Int) ∨
          nb.2.2 < 0 ∨ nb.2.2 ≥ (model.nz : Int) then
        false
      else
        !(minedBlocks.getD (getBlockIndex nb.1.toNat nb.2.1.toNat nb.2.2.toNat
            model.nx model.ny) false)

/-- The `faces` array of `SurfaceMesh` in `Visualization3D.tsx`, as the
`(dx, dy, dz)` offsets of the source, in source order. -/
def meshFaces : List (Int × Int × Int) :=
  [(-1, 0, 0), (1, 0, 0), (0, 0, -1), (0, 0, 1), (0, -1, 0), (0, 1, 0)]

/-- The per-face exposure test of `SurfaceMesh`: the source computes the
neighbor as `(x + dx, y + dz, z + dy)` (the `dy`/`dz` swap mirrors the
render-axis remap) and a face is exposed iff that neighbor is in-bounds and
unmined; out-of-bounds neighbors are never exposed. -/
def faceExposed (model : BlockModel) (minedBlocks : List Bool) (coords : Coords)
    (face : Int × Int × Int) : Bool :=
  let nxCoord : Int := (coords.x : Int) + face.1
  let nyCoord : Int := (coords.y : Int) + face.2.2
  let nzCoord : Int := (coords.z : Int) + face.2.1
  if nxCoord < 0 ∨ nxCoord ≥ (model.nx : Int) ∨ nyCoord < 0 ∨ nyCoord ≥ (model.ny : Int) ∨
      nzCoord < 0 ∨ nzCoord ≥ (model.nz : Int) then
    false
  else
    !(minedBlocks.getD (getBlockIndex nxCoord.toNat nyCoord.toNat nzCoord.toNat
        model.nx model.ny) false)

/-- The index-buffer construction of `SurfaceMesh`: for every boundary block
and every exposed face, four vertices are appended (`baseIndex` is the vertex
count so far) together with the two triangles
`[base, base+1, base+2]` and `[base, base+2, base+3]` of the quad.
Returns the final vertex count and the flat triangle index list. -/
def surfaceMeshIndices (model : BlockModel) (minedBlocks : List Bool) : Nat × List Nat :=
  (List.range model.values.length).foldl
    (fun acc i =>
      if isBoundaryBlock i model minedBlocks then
        meshFaces.foldl
          (fun (acc2 : Nat × List Nat) face =>
            if faceExposed model minedBlocks (getBlockCoords i model.nx model.ny) face then
              (acc2.1 + 4,
               acc2.2 ++ [acc2.1, acc2.1 + 1, acc2.1 + 2, acc2.1, acc2.1 + 2, acc2.1 + 3])
            else acc2)
          acc
      else acc)
    (0, [])

/-- The triangle count of the surface mesh, as the source reports it:
`indices.length / 3`. -/
def surfaceTriangleCount (model : BlockModel) (minedBlocks : List Bool) : Nat :=
  (surfaceMeshIndices model minedBlocks).2.length / 3

/-- Modelled from the spec: the count of exposed internal faces — faces of
mined blocks whose across-face neighbor is in-bounds and unmined.  Stated
from the specification's words, for comparison with `surfaceTriangleCount`. -/
def exposedInternalFaceCount (model : BlockModel) (minedBlocks : List Bool) : Nat :=
  ((List.range model.values.length).map fun i =>
    if minedBlocks.getD i false then
      (meshFaces.filter
        (faceExposed model minedBlocks (getBlockCoords i model.nx model.ny))).length
    else 0).sum

/-- The running accumulator of the single statistics pass of
`calculateStats`. -/
structure StatsAcc where
  minValue : JSNum
  maxValue : JSNum
  totalValue : JSNum
  positiveCount : Nat
  negativeCount : Nat
  minedValue : JSNum
  minedCount : Nat
deriving Repr, DecidableEq

/-- The result record of `calculateStats`. -/
structure Stats where
  minValue : JSNum
  maxValue : JSNum
  maxAbsValue : JSNum
  totalValue : JSNum
  averageValue : JSNum
  positiveCount : Nat
  negativeCount : Nat
  minedValue : JSNum
  minedCount : Nat
deriving Repr, DecidableEq

/-- One iteration of the `calculateStats` loop, at the pair
`(i, value) = (index, model.values[i])`. -/
def statsStep (minedBlocks? : Option (List Bool)) (acc : StatsAcc) (iv : Nat × Int) : StatsAcc :=
  let value : JSNum := JSNum.fin (iv.2 : ℚ)
  { minValue := JSNum.jmin acc.minValue value
    maxValue := JSNum.jmax acc.maxValue value
    totalValue := acc.totalValue + value
    positiveCount := if 0 < iv.2 then acc.positiveCount + 1 else acc.positiveCount
    negativeCount := if iv.2 < 0 then acc.negativeCount + 1 else acc.negativeCount
    minedValue :=
      match minedBlocks? with
      | some mb => if mb.getD iv.1 false then acc.minedValue + value else acc.minedValue
      | none => acc.minedValue
    minedCount :=
      match minedBlocks? with
      | some mb => if mb.getD iv.1 false then acc.minedCount + 1 else acc.minedCount
      | none => acc.minedCount }

/-- `calculateStats` from `blockModel.ts`: a single pass with `minValue`
starting at `Infinity` and `maxValue` at `-Infinity`; afterwards
`maxAbsValue = Math.max(|minValue|, |maxValue|)` and
`averageValue = totalValue / values.length`.  The source has no emptiness
check and no error path: it is a total function. -/
def calculateStats (model : BlockModel) (minedBlocks? : Option (List Bool)) : Stats :=
  let acc := model.values.enum.foldl (statsStep minedBlocks?)
    { minValue := JSNum.posInf, maxValue := JSNum.negInf, totalValue := JSNum.fin 0,
      positiveCount := 0, negativeCount := 0, minedValue := JSNum.fin 0, minedCount := 0 }
  { minValue := acc.minValue
    maxValue := acc.maxValue
    maxAbsValue := JSNum.jmax acc.minValue.abs acc.maxValue.abs
    totalValue := acc.totalValue
    averageValue := acc.totalValue / JSNum.fin (model.values.length : ℚ)
    positiveCount := acc.positiveCount
    negativeCount := acc.negativeCount
    minedValue := acc.minedValue
    minedCount := acc.minedCount }

/-- The view filter of `Visualization3D`. -/
inductive ViewMode where
  | all
  | mined
  | unmined
deriving Repr, DecidableEq, BEq

/-- The slice axis of `Visualization3D`. -/
inductive SliceDim where
  | x
  | y
  | z
deriving Repr, DecidableEq, BEq

/-- The view-state inputs of `BlockInstances` that determine which blocks are
emitted (the color scheme only affects colors, never the emitted set). -/
structure ViewState where
  viewMode : ViewMode
  currentLayer : Option Nat
  sliceDimension : SliceDim
  showWireframe : Bool
deriving Repr, DecidableEq

/-- `MAX_BLOCKS_TO_RENDER` from `BlockInstances`. -/
def MAX_BLOCKS_TO_RENDER : Nat := 100000

/-- The `skipFactor` computation of `BlockInstances`:
`(!isFilteredView && !isCrossSection && totalBlocks > MAX) ? Math.ceil(totalBlocks / MAX) : 1`
where `isFilteredView = viewMode !== 'all'` and
`isCrossSection = currentLayer !== null`.  `Math.ceil` of the exact quotient
is the rounding-up `Nat` division. -/
def skipFactor (vs : ViewState) (totalBlocks : Nat) : Nat :=
  if vs.viewMode = ViewMode.all ∧ vs.currentLayer = none ∧
      MAX_BLOCKS_TO_RENDER < totalBlocks then
    (totalBlocks + MAX_BLOCKS_TO_RENDER - 1) / MAX_BLOCKS_TO_RENDER
  else 1

/-- The header `for (let i = 0; i < total; i += skip)` as the list of visited
indices, with fuel for termination (fuel `total ≥` the iteration count
whenever `skip ≥ 1`). -/
def visitIndices : Nat → Nat → Nat → Nat → List Nat
  | 0, _, _, _ => []
  | fuel + 1, i, total, skip =>
    if i < total then i :: visitIndices fuel (i + skip) total skip else []

/-- The indices visited by the `BlockInstances` loop header. -/
def renderLoopVisited (total skip : Nat) : List Nat :=
  visitIndices total 0 total skip

/-- The per-block filters of the `BlockInstances` loop body: the layer slice
(`continue` when the coordinate along the slice axis differs), then — only
when a mined mask exists — the wireframe/unmined skip, the view-mode filter,
and the wireframe boundary-block test. -/
def passesFilters (vs : ViewState) (model : BlockModel) (minedBlocks? : Option (List Bool))
    (i : Nat) : Bool :=
  let coords := getBlockCoords i model.nx model.ny
  let layerOk : Bool :=
    match vs.currentLayer with
    | some layer =>
      let coordValue :=
        match vs.sliceDimension with
        | SliceDim.x => coords.x
        | SliceDim.y => coords.y
        | SliceDim.z => coords.z
      coordValue == layer
    | none => true
  if !layerOk then false
  else
    match minedBlocks? with
    | some minedBlocks =>
      let isMined := minedBlocks.getD i false
      if vs.showWireframe && !isMined then false
      else if vs.viewMode == ViewMode.mined && !isMined then false
      else if vs.viewMode == ViewMode.unmined && isMined then false
      else if vs.showWireframe && isMined && !(isBoundaryBlock i model minedBlocks) then false
      else true
    | none => true

/-- The emission part of the `BlockInstances` loop over the visited indices:
the loop breaks when `!isCrossSection && blocksRendered >= MAX`, otherwise a
block passing the filters is appended to the instance→block index mapping and
`blocksRendered` is incremented. -/
def renderEmit (vs : ViewState) (model : BlockModel) (minedBlocks? : Option (List Bool)) :
    List Nat → Nat → List Nat
  | [], _ => []
  | i :: rest, blocksRendered =>
    if vs.currentLayer = none ∧ MAX_BLOCKS_TO_RENDER ≤ blocksRendered then []
    else if passesFilters vs model minedBlocks? i then
      i :: renderEmit vs model minedBlocks? rest (blocksRendered + 1)
    else renderEmit vs model minedBlocks? rest blocksRendered

/-- The instance→block index mapping built by `BlockInstances` (one entry per
emitted instance, in emission order). -/
def blockInstances (vs : ViewState) (model : BlockModel)
    (minedBlocks? : Option (List Bool)) : List Nat :=
  let total := model.values.length
  renderEmit vs model minedBlocks? (renderLoopVisited total (skipFactor vs total)) 0

/-- JavaScript `String.prototype.trim()`: remove leading and trailing
whitespace.  Modelled on the character list so that concrete evaluation
reduces. -/
def jsTrim (s : String) : String :=
  ⟨((s.data.dropWhile Char.isWhitespace).reverse.dropWhile Char.isWhitespace).reverse⟩

/-- The splitting loop behind `content.split('\x5cn')`: cut the character
list at every newline (a trailing newline yields a trailing empty piece,
as in JavaScript). -/
def splitNewlineAux : List Char → List Char → List (List Char)
  | [], acc => [acc.reverse]
  | c :: rest, acc =>
    if c = '\n' then acc.reverse :: splitNewlineAux rest []
    else splitNewlineAux rest (c :: acc)

/-- JavaScript `s.split('\x5cn')`. -/
def splitLines (s : String) : List String :=
  (splitNewlineAux s.data []).map String.mk

/-- JavaScript `parseInt(s, 10)`: skip leading whitespace, read an optional
sign, then the longest prefix of decimal digits; no digits means `NaN`
(here `none`), and anything after the digits is discarded. -/
def jsParseInt (s : String) : Option Int :=
  let chars := s.data.dropWhile Char.isWhitespace
  let signDigits : Int × List Char :=
    match chars with
    | '-' :: rest => (-1, rest)
    | '+' :: rest => (1, rest)
    | _ => (1, chars)
  let digits := signDigits.2.takeWhile Char.isDigit
  if digits.isEmpty then none
  else
    some (signDigits.1 *
      (digits.foldl (fun acc c => acc * 10 + (c.toNat - ('0').toNat)) 0 : Nat))

/-- Modelled from the claim's wording: the trimmed text begins with an
optionally-signed decimal digit.  Stated for comparison with
`jsParseInt`. -/
def beginsWithSignedDigit (t : String) : Bool :=
  match t.data with
  | [] => false
  | '-' :: rest =>
    match rest with
    | [] => false
    | c :: _ => c.isDigit
  | '+' :: rest =>
    match rest with
    | [] => false
    | c :: _ => c.isDigit
  | c :: _ => c.isDigit

/-- The output-file processing loop of `runMineflow` (`electron/mineflow.ts`):
each line holds a 0-based block index; a line whose `parseInt` is `NaN` or
whose index is out of `[0, numBlocks)` is skipped, otherwise the mask bit is
set and `numBlocksMined` is incremented — once per valid line, with no
deduplication.  Returns `(minedBlocks, numBlocksMined)`. -/
def processSolverOutput (lines : List String) (numBlocks : Nat) : List Bool × Nat :=
  lines.foldl
    (fun (acc : List Bool × Nat) line =>
      match jsParseInt (jsTrim line) with
      | some blockIndex =>
        if 0 ≤ blockIndex ∧ blockIndex < (numBlocks : Int) then
          (acc.1.set blockIndex.toNat true, acc.2 + 1)
        else acc
      | none => acc)
    (List.replicate numBlocks false, 0)

/-- The error cases of `parseDatFile`: the line-count check and the
per-line malformed-value check (`Invalid value at line i+1`). -/
inductive ParseError where
  | dimensionMismatch (expected actual : Nat)
  | malformedValue (lineNumber : Nat) (raw : String)
deriving Repr, DecidableEq

/-- Storage into the `Int32Array` backing `BlockModel.values`: JavaScript
wraps the stored number to a signed 32-bit integer. -/
def toInt32 (v : Int) : Int := (v + 2 ^ 31) % 2 ^ 32 - 2 ^ 31

/-- The per-line loop of `parseDatFile`, carrying the 0-based line index:
`parseInt(lines[i].trim(), 10)`; `NaN` aborts with the malformed-value error
for line `i + 1`, otherwise the value is stored. -/
def parseValues : List String → Nat → Except ParseError (List Int)
  | [], _ => .ok []
  | line :: rest, i =>
    match jsParseInt (jsTrim line) with
    | none => .error (.malformedValue (i + 1) line)
    | some v =>
      match parseValues rest (i + 1) with
      | .error e => .error e
      | .ok vs => .ok (toInt32 v :: vs)

/-- `parseDatFile` from `fileParser.ts`: split the trimmed content on
newlines, fail with the dimension mismatch when the line count is not
`nx*ny*nz`, then parse each line. -/
def parseDatFile (content : String) (nx ny nz : Nat) : Except ParseError BlockModel :=
  let lines := splitLines (jsTrim content)
  let expectedBlocks := nx * ny * nz
  if lines.length = expectedBlocks then
    match parseValues lines 0 with
    | .error e => .error e
    | .ok vs => .ok ⟨nx, ny, nz, vs⟩
  else .error (.dimensionMismatch expectedBlocks lines.length)

/-- C1: on a grid with positive dimensions, `getBlockCoords` inverts
`getBlockIndex` at every in-range coordinate: for `0 ≤ x < nx`,
`0 ≤ y < ny`, `0 ≤ z < nz`,
`getBlockCoords (getBlockIndex x y z nx ny) nx ny = (x, y, z)`. -/
theorem getBlockCoords_getBlockIndex
    (x y z nx ny nz : Nat) (hnx : 0 < nx) (hny : 0 < ny) (hnz : 0 < nz)
    (hx : x < nx) (hy : y < ny) (hz : z < nz) :
    getBlockCoords (getBlockIndex x y z nx ny) nx ny = ⟨x, y, z⟩ := by
  have hidx : getBlockIndex x y z nx ny = x + nx * (y + ny * z) := by
    unfold getBlockIndex; ring
  have hxy : x + y * nx < nx * ny := by
    calc x + y * nx < nx + y * nx := by omega
    _ = (y + 1) * nx := by ring
    _ ≤ ny * nx := Nat.mul_le_mul_right nx hy
    _ = nx * ny := Nat.mul_comm ny nx
  unfold getBlockCoords
  refine Coords.mk.injEq .. ▸ ⟨?_, ?_, ?_⟩
  · rw [hidx, Nat.add_mul_mod_self_left, Nat.mod_eq_of_lt hx]
  · rw [hidx, Nat.add_mul_div_left _ _ hnx, Nat.div_eq_of_lt hx,
      Nat.zero_add, Nat.add_mul_mod_self_left, Nat.mod_eq_of_lt hy]
  · have h2 : getBlockIndex x y z nx ny = (x + y * nx) + nx * ny * z := by
      unfold getBlockIndex; ring
    rw [h2, Nat.add_mul_div_left _ _ (Nat.mul_pos hnx hny),
      Nat.div_eq_of_lt hxy, Nat.zero_add]

/-- Witness for C1 at the concrete in-range coordinate `(1,0,1)` of a
`2×2×2` grid. -/
theorem getBlockCoords_getBlockIndex_witness :
    getBlockCoords (getBlockIndex 1 0 1 2 2) 2 2 = ⟨1, 0, 1⟩ :=
  getBlockCoords_getBlockIndex 1 0 1 2 2 2
    (by decide) (by decide) (by decide) (by decide) (by decide) (by decide)

/-- Addition of finite values is rational addition. -/
theorem jfin_add (a b : ℚ) : JSNum.fin a + JSNum.fin b = JSNum.fin (a + b) := rfl

/-- Subtraction of finite values is rational subtraction. -/
theorem jfin_sub (a b : ℚ) : JSNum.fin a - JSNum.fin b = JSNum.fin (a - b) := by
  show JSNum.sub _ _ = _
  simp [JSNum.sub, JSNum.neg, JSNum.add, sub_eq_add_neg]

/-- Multiplication of finite values is rational multiplication. -/
theorem jfin_mul (a b : ℚ) : JSNum.fin a * JSNum.fin b = JSNum.fin (a * b) := rfl

/-- Division of finite values by a nonzero finite value is rational
division. -/
theorem jfin_div (a b : ℚ) (h : b ≠ 0) :
    JSNum.fin a / JSNum.fin b = JSNum.fin (a / b) := by
  show JSNum.div _ _ = _
  simp [JSNum.div, h]

/-- Comparison of finite values is rational comparison. -/
theorem jfin_lt (a b : ℚ) : (JSNum.fin a).lt (JSNum.fin b) = decide (a < b) := rfl

/-- Absolute value of a finite value is the rational absolute value. -/
theorem jfin_abs (a : ℚ) : (JSNum.fin a).abs = JSNum.fin |a| := rfl

/-- The `Div` instance unfolds to `JSNum.div`. -/
theorem jdiv_def (a b : JSNum) : a / b = a.div b := rfl

/-- The `Add` instance unfolds to `JSNum.add`. -/
theorem jadd_def (a b : JSNum) : a + b = a.add b := rfl

/-- The `Sub` instance unfolds to `JSNum.sub`. -/
theorem jsub_def (a b : JSNum) : a - b = a.sub b := rfl

/-- The `Mul` instance unfolds to `JSNum.mul`. -/
theorem jmul_def (a b : JSNum) : a * b = a.mul b := rfl

/-- `Math.min` of finite values is the rational minimum. -/
theorem jmin_fin_fin (a b : ℚ) :
    JSNum.jmin (JSNum.fin a) (JSNum.fin b) = JSNum.fin (min a b) := by
  show (if (JSNum.fin a).lt (JSNum.fin b) then JSNum.fin a else JSNum.fin b) = _
  rw [jfin_lt]
  rcases lt_or_ge a b with h | h
  · simp [h, min_eq_left h.le]
  · simp [not_lt.mpr h, min_eq_right h]

/-- `Math.max` of finite values is the rational maximum. -/
theorem jmax_fin_fin (a b : ℚ) :
    JSNum.jmax (JSNum.fin a) (JSNum.fin b) = JSNum.fin (max a b) := by
  show (if (JSNum.fin a).lt (JSNum.fin b) then JSNum.fin b else JSNum.fin a) = _
  rw [jfin_lt]
  rcases lt_or_ge a b with h | h
  · simp [h, max_eq_right h.le]
  · simp [not_lt.mpr h, max_eq_left h]

/-- `Math.min` with the initial `Infinity` yields the finite argument. -/
theorem jmin_posInf_fin (b : ℚ) :
    JSNum.jmin JSNum.posInf (JSNum.fin b) = JSNum.fin b := rfl

/-- `Math.max` with the initial `-Infinity` yields the finite argument. -/
theorem jmax_negInf_fin (b : ℚ) :
    JSNum.jmax JSNum.negInf (JSNum.fin b) = JSNum.fin b := rfl

/-- On the negative half with magnitude below one half, `valueToColor` is the
dark-red → bright-red segment formula. -/
theorem valueToColor_eq_negSegLow (t : ℚ) (h0 : 0 < t) (h1 : t < 1/2) :
    valueToColor (j (-t)) (j 1) = negSegLow t := by
  have habs : |(-t : ℚ)| = t := by rw [abs_neg, abs_of_pos h0]
  norm_num [valueToColor, negSegLow, j, jfin_div, jfin_lt, jfin_abs, habs,
    h0, h1]

/-- On the negative half with magnitude at least one half, `valueToColor` is
the bright-red → orange segment formula. -/
theorem valueToColor_eq_negSegHigh (t : ℚ) (h0 : 1/2 ≤ t) :
    valueToColor (j (-t)) (j 1) = negSegHigh t := by
  have ht : (0 : ℚ) < t := lt_of_lt_of_le (by norm_num) h0
  have habs : |(-t : ℚ)| = t := by rw [abs_neg, abs_of_pos ht]
  norm_num [valueToColor, negSegHigh, j, jfin_div, jfin_lt, jfin_abs, habs,
    ht, not_lt.mpr h0]

/-- On the positive half below `0.33`, `valueToColor` is the yellow → green
segment formula. -/
theorem valueToColor_eq_posSegLow (t : ℚ) (h0 : 0 ≤ t) (h1 : t < 33/100) :
    valueToColor (j t) (j 1) = posSegLow t := by
  norm_num [valueToColor, posSegLow, j, jfin_div, jfin_lt, jfin_abs,
    not_lt.mpr h0, h1]

/-- On the positive half between `0.33` and `0.67`, `valueToColor` is the
green → cyan segment formula. -/
theorem valueToColor_eq_posSegMid (t : ℚ) (h0 : 33/100 ≤ t) (h1 : t < 67/100) :
    valueToColor (j t) (j 1) = posSegMid t := by
  have ht : (0 : ℚ) ≤ t := le_trans (by norm_num) h0
  norm_num [valueToColor, posSegMid, j, jfin_div, jfin_lt, jfin_abs,
    not_lt.mpr ht, not_lt.mpr h0, h1]

/-- On the positive half at or above `0.67`, `valueToColor` is the
cyan → blue segment formula. -/
theorem valueToColor_eq_posSegHigh (t : ℚ) (h0 : 67/100 ≤ t) :
    valueToColor (j t) (j 1) = posSegHigh t := by
  have ht : (0 : ℚ) ≤ t := le_trans (by norm_num) h0
  have h33 : ¬ (t < 33/100) := by
    intro h
    exact absurd (lt_of_le_of_lt h0 h) (by norm_num)
  norm_num [valueToColor, posSegHigh, j, jfin_div, jfin_lt, jfin_abs,
    not_lt.mpr ht, h33, not_lt.mpr h0]

/-- C7: the value→color mapping is continuous at every segment breakpoint:
at magnitude `t = 0.5` on the negative half the dark-red→bright-red formula
equals the bright-red→orange formula (and `valueToColor` takes the latter
branch there), and on the positive half the adjacent segment formulas agree
at `t = 0.33` and `t = 0.67`, exactly in the idealized rational semantics —
hence within floating tolerance. -/
theorem valueToColor_breakpoint_continuity :
    negSegLow (1/2) = negSegHigh (1/2) ∧
    posSegLow (33/100) = posSegMid (33/100) ∧
    posSegMid (67/100) = posSegHigh (67/100) ∧
    valueToColor (j (-(1/2))) (j 1) = negSegHigh (1/2) ∧
    valueToColor (j (33/100)) (j 1) = posSegMid (33/100) ∧
    valueToColor (j (67/100)) (j 1) = posSegHigh (67/100) := by
  refine ⟨?_, ?_, ?_, ?_, ?_, ?_⟩
  · norm_num [negSegLow, negSegHigh, j, jfin_add, jfin_sub, jfin_mul]
  · norm_num [posSegLow, posSegMid, j, jfin_add, jfin_sub, jfin_mul, jfin_div]
  · norm_num [posSegMid, posSegHigh, j, jfin_add, jfin_sub, jfin_mul, jfin_div]
  · exact valueToColor_eq_negSegHigh (1/2) (by norm_num)
  · exact valueToColor_eq_posSegMid (33/100) (by norm_num) (by norm_num)
  · exact valueToColor_eq_posSegHigh (67/100) (by norm_num)

/-- C6: `valueToColor` has no `maxAbsValue == 0` guard.  At
`(value, maxAbsValue) = (0, 0)` the source divides `0 / 0 = NaN`, the `NaN`
fails every comparison, the cyan→blue branch is taken, and the result is
`(0, NaN, 1)` — not the zero-endpoint color `valueToColor(0, 1) = (1, 1, 0)`
(yellow) that the specification requires. -/
theorem valueToColor_maxAbsZero_nan :
    valueToColor (j 0) (j 0) = ⟨j 0, JSNum.nan, j 1⟩ ∧
    valueToColor (j 0) (j 1) = ⟨j 1, j 1, j 0⟩ ∧
    valueToColor (j 0) (j 0) ≠ valueToColor (j 0) (j 1) := by
  refine ⟨?_, ?_, ?_⟩
  · norm_num [valueToColor, j, jdiv_def, jadd_def, jsub_def, jmul_def,
      JSNum.div, JSNum.lt, JSNum.abs, JSNum.sub, JSNum.neg, JSNum.mul,
      JSNum.add]
  · norm_num [valueToColor, j, jfin_add, jfin_sub, jfin_mul, jfin_div,
      jfin_lt, jfin_abs]
  · intro h
    rw [show valueToColor (j 0) (j 0) = ⟨j 0, JSNum.nan, j 1⟩ by
        norm_num [valueToColor, j, jdiv_def, jadd_def, jsub_def, jmul_def,
          JSNum.div, JSNum.lt, JSNum.abs, JSNum.sub, JSNum.neg, JSNum.mul,
          JSNum.add],
      show valueToColor (j 0) (j 1) = ⟨j 1, j 1, j 0⟩ by
        norm_num [valueToColor, j, jfin_add, jfin_sub, jfin_mul, jfin_div,
          jfin_lt, jfin_abs]] at h
    simp [j] at h

/-- C4 counterexample: on the 2×2×1 grid with mined mask `[1,1,0,1]`,
`isBoundaryBlock(1)` is `false`, not `true` as claimed: block 1 is `(1,0,0)`
and its in-bounds 6-neighbors are blocks 0 `(0,0,0)` and 3 `(1,1,0)`, both
mined; block 2 `(0,1,0)` is not a 6-neighbor of block 1. -/
theorem isBoundaryBlock_scenarioB_cex :
    ¬ (isBoundaryBlock 1 ⟨2, 2, 1, [10, -5, 3, -1]⟩ [true, true, false, true]
        = true) := by decide

/-- C4 amended: on the 2×2×1 grid with mined mask `[1,1,0,1]`,
`isBoundaryBlock(1)` is `false` (all in-bounds neighbors of block 1 are
mined), while `isBoundaryBlock(0)` is `true` because block 2 = `(0,1,0)` is
an unmined in-bounds neighbor of block 0. -/
theorem isBoundaryBlock_scenarioB_amended :
    isBoundaryBlock 1 ⟨2, 2, 1, [10, -5, 3, -1]⟩ [true, true, false, true]
      = false ∧
    isBoundaryBlock 0 ⟨2, 2, 1, [10, -5, 3, -1]⟩ [true, true, false, true]
      = true ∧
    getBlockIndex 0 1 0 2 2 = 2 ∧
    ([true, true, false, true].getD 2 false) = false := by decide

/-- The loop header visits exactly the multiples of the stride below
`total`, in ascending order, whenever the fuel covers the remaining
iterations. -/
theorem visitIndices_spec :
    ∀ (fuel i total skip : Nat), 1 ≤ skip → total - i ≤ fuel →
      visitIndices fuel i total skip =
        (List.range ((total - i + skip - 1) / skip)).map (fun k => i + k * skip) := by
  intro fuel
  induction fuel with
  | zero =>
    intro i total skip hskip hfuel
    have h0 : total - i = 0 := Nat.le_zero.mp hfuel
    rw [visitIndices, h0]
    rw [Nat.div_eq_of_lt (by omega)]
    rfl
  | succ fuel ih =>
    intro i total skip hskip hfuel
    rw [visitIndices]
    by_cases hlt : i < total
    · rw [if_pos hlt]
      have hd : 1 ≤ total - i := by omega
      have hrec := ih (i + skip) total skip hskip (by omega)
      rw [hrec]
      have hn : (total - i + skip - 1) / skip = (total - i - 1) / skip + 1 := by
        have he : total - i + skip - 1 = (total - i - 1) + skip := by omega
        rw [he, Nat.add_div_right _ hskip]
      have hm : (total - (i + skip) + skip - 1) / skip = (total - i - 1) / skip := by
        rcases le_or_lt skip (total - i) with h | h
        · congr 1
          omega
        · rw [Nat.div_eq_of_lt (by omega), Nat.div_eq_of_lt (by omega)]
      rw [hm, hn, List.range_succ_eq_map, List.map_cons, List.map_map]
      have hf : ((fun k => i + k * skip) ∘ Nat.succ) = fun k => (i + skip) + k * skip := by
        funext k
        simp [Nat.succ_mul]
        ring
      rw [hf]
      simp
    · rw [if_neg hlt]
      have h0 : total - i = 0 := by omega
      rw [h0, Nat.div_eq_of_lt (by omega)]
      rfl

/-- The loop header of `BlockInstances` visits the multiples of the stride
below the total, in ascending order. -/
theorem renderLoopVisited_spec (total skip : Nat) (hskip : 1 ≤ skip) :
    renderLoopVisited total skip =
      (List.range ((total + skip - 1) / skip)).map (fun k => k * skip) := by
  rw [renderLoopVisited, visitIndices_spec total 0 total skip hskip (by omega)]
  simp

/-- With no slice and no mined mask, every block passes the loop-body
filters. -/
theorem passesFilters_none (vs : ViewState) (model : BlockModel) (i : Nat)
    (hl : vs.currentLayer = none) :
    passesFilters vs model none i = true := by
  simp [passesFilters, hl]

/-- When every visited block passes the filters and the rendering cap is not
reached, the emission loop emits exactly the visited list. -/
theorem renderEmit_all_pass (vs : ViewState) (model : BlockModel)
    (minedBlocks? : Option (List Bool)) :
    ∀ (l : List Nat) (n : Nat),
      (∀ i ∈ l, passesFilters vs model minedBlocks? i = true) →
      n + l.length ≤ MAX_BLOCKS_TO_RENDER →
      renderEmit vs model minedBlocks? l n = l := by
  intro l
  induction l with
  | nil => intro n _ _; rfl
  | cons i rest ih =>
    intro n hpass hlen
    rw [renderEmit]
    have hbreak : ¬ (vs.currentLayer = none ∧ MAX_BLOCKS_TO_RENDER ≤ n) := by
      rintro ⟨-, hn⟩
      simp [List.length_cons] at hlen
      omega
    rw [if_neg hbreak, if_pos (hpass i (List.mem_cons_self i rest))]
    rw [ih (n + 1) (fun k hk => hpass k (List.mem_cons_of_mem i hk)) (by
      simp [List.length_cons] at hlen
      omega)]

/-- When a layer slice is active the emission loop never breaks: it emits
exactly the visited blocks that pass the filters. -/
theorem renderEmit_slice_filter (vs : ViewState) (model : BlockModel)
    (minedBlocks? : Option (List Bool)) (layer : Nat)
    (hl : vs.currentLayer = some layer) :
    ∀ (l : List Nat) (n : Nat),
      renderEmit vs model minedBlocks? l n =
        l.filter (passesFilters vs model minedBlocks?) := by
  intro l
  induction l with
  | nil => intro n; rfl
  | cons i rest ih =>
    intro n
    rw [renderEmit]
    have hbreak : ¬ (vs.currentLayer = none ∧ MAX_BLOCKS_TO_RENDER ≤ n) := by
      rintro ⟨h, -⟩
      rw [hl] at h
      exact Option.noConfusion h
    rw [if_neg hbreak]
    by_cases hp : passesFilters vs model minedBlocks? i = true
    · rw [if_pos hp, ih (n + 1), List.filter_cons_of_pos hp]
    · rw [if_neg hp, ih n, List.filter_cons_of_neg (by simpa using hp)]

/-- C2: with no layer slice and view filter `all`, the stride is `1` when the
total block count is at most `MAX_BLOCKS_TO_RENDER = 100000` and the
rounding-up quotient `⌈total / MAX⌉` otherwise; the loop then visits every
stride-th block in ascending index order; in particular for a 250000-block
model the stride is 3 and exactly `⌈250000 / 3⌉ = 83334` instances are
emitted. -/
theorem blockInstances_subsampling :
    (∀ (d : SliceDim) (wf : Bool) (total : Nat),
      total ≤ MAX_BLOCKS_TO_RENDER →
      skipFactor ⟨ViewMode.all, none, d, wf⟩ total = 1) ∧
    (∀ (d : SliceDim) (wf : Bool) (total : Nat),
      MAX_BLOCKS_TO_RENDER < total →
      skipFactor ⟨ViewMode.all, none, d, wf⟩ total =
        (total + MAX_BLOCKS_TO_RENDER - 1) / MAX_BLOCKS_TO_RENDER) ∧
    (∀ total skip : Nat, 1 ≤ skip →
      renderLoopVisited total skip =
        (List.range ((total + skip - 1) / skip)).map (fun k => k * skip)) ∧
    skipFactor ⟨ViewMode.all, none, SliceDim.z, false⟩ 250000 = 3 ∧
    (blockInstances ⟨ViewMode.all, none, SliceDim.z, false⟩
        ⟨100, 50, 50, List.replicate 250000 0⟩ none).length = 83334 := by
  refine ⟨?_, ?_, ?_, ?_, ?_⟩
  · intro d wf total htot
    rw [skipFactor, if_neg]
    rintro ⟨-, -, hgt⟩
    omega
  · intro d wf total htot
    rw [skipFactor, if_pos ⟨rfl, rfl, htot⟩]
  · intro total skip hskip
    exact renderLoopVisited_spec total skip hskip
  · decide
  · rw [blockInstances]
    show (renderEmit ⟨ViewMode.all, none, SliceDim.z, false⟩
        ⟨100, 50, 50, List.replicate 250000 0⟩ none
        (renderLoopVisited (List.replicate 250000 (0 : Int)).length
          (skipFactor ⟨ViewMode.all, none, SliceDim.z, false⟩
            (List.replicate 250000 (0 : Int)).length)) 0).length = 83334
    rw [List.length_replicate]
    have hsf : skipFactor ⟨ViewMode.all, none, SliceDim.z, false⟩ 250000 = 3 := by
      decide
    rw [hsf, renderLoopVisited_spec 250000 3 (by omega)]
    have hdiv : (250000 + 3 - 1) / 3 = 83334 := by norm_num
    rw [hdiv]
    rw [renderEmit_all_pass _ _ _ _ 0
      (fun i _ => passesFilters_none _ _ i rfl)
      (by rw [List.length_map, List.length_range]; decide)]
    rw [List.length_map, List.length_range]

/-- Witness for C2 at concrete inputs: stride 1 at a small total, the ceiling
stride above the cap, and the stride-th visit list for `total = 7`,
`skip = 3`. -/
theorem blockInstances_subsampling_witness :
    skipFactor ⟨ViewMode.all, none, SliceDim.x, false⟩ 100 = 1 ∧
    skipFactor ⟨ViewMode.all, none, SliceDim.x, true⟩ 150000 =
      (150000 + MAX_BLOCKS_TO_RENDER - 1) / MAX_BLOCKS_TO_RENDER ∧
    renderLoopVisited 7 3 =
      (List.range ((7 + 3 - 1) / 3)).map (fun k => k * 3) :=
  ⟨blockInstances_subsampling.1 SliceDim.x false 100 (by decide),
   blockInstances_subsampling.2.1 SliceDim.x true 150000 (by decide),
   blockInstances_subsampling.2.2.1 7 3 (by decide)⟩

/-- C3 counterexample: the boundary-only ("surface only") toggle does not
force full enumeration.  With view filter `all`, no slice, the wireframe
toggle on and 150000 blocks, the stride is 2, not 1 — `skipFactor` never
consults `showWireframe`. -/
theorem skipFactor_wireframe_cex :
    ¬ (skipFactor ⟨ViewMode.all, none, SliceDim.x, true⟩ 150000 = 1) := by
  decide

/-- C3 amended: a non-`all` view filter or an active layer slice forces
stride 1, and stride 1 visits every block; with a slice active the emission
loop never stops early (it emits exactly the blocks passing the filters);
but the boundary-only toggle does not affect the stride: with the toggle
alone and total > MAX the stride is still `⌈total / MAX⌉`, so enumeration is
subsampled. -/
theorem skipFactor_filters_amended :
    (∀ (vs : ViewState) (total : Nat),
      vs.viewMode ≠ ViewMode.all ∨ vs.currentLayer ≠ none →
      skipFactor vs total = 1) ∧
    (∀ (d : SliceDim) (total : Nat), MAX_BLOCKS_TO_RENDER < total →
      skipFactor ⟨ViewMode.all, none, d, true⟩ total =
        (total + MAX_BLOCKS_TO_RENDER - 1) / MAX_BLOCKS_TO_RENDER) ∧
    (∀ total : Nat, renderLoopVisited total 1 = List.range total) ∧
    (∀ (vs : ViewState) (model : BlockModel) (minedBlocks? : Option (List Bool))
      (layer : Nat) (l : List Nat) (n : Nat), vs.currentLayer = some layer →
      renderEmit vs model minedBlocks? l n =
        l.filter (passesFilters vs model minedBlocks?)) := by
  refine ⟨?_, ?_, ?_, ?_⟩
  · intro vs total hvs
    rw [skipFactor, if_neg]
    rintro ⟨hall, hnone, -⟩
    rcases hvs with h | h
    · exact h hall
    · exact h hnone
  · intro d total htot
    rw [skipFactor, if_pos ⟨rfl, rfl, htot⟩]
  · intro total
    rw [renderLoopVisited_spec total 1 le_rfl]
    simp
  · intro vs model minedBlocks? layer l n hl
    exact renderEmit_slice_filter vs model minedBlocks? layer hl l n

/-- Witness for C3's amended statement at concrete inputs: a mined-only
filter gives stride 1, the wireframe-only stride above the cap, stride-1
visiting of all five blocks, and exact slice filtering on a small grid. -/
theorem skipFactor_filters_amended_witness :
    skipFactor ⟨ViewMode.mined, none, SliceDim.x, false⟩ 250000 = 1 ∧
    skipFactor ⟨ViewMode.all, none, SliceDim.y, true⟩ 250000 =
      (250000 + MAX_BLOCKS_TO_RENDER - 1) / MAX_BLOCKS_TO_RENDER ∧
    renderLoopVisited 5 1 = List.range 5 ∧
    renderEmit ⟨ViewMode.all, some 1, SliceDim.y, false⟩ ⟨2, 2, 1, [1, 2, 3, 4]⟩
        none [0, 1, 2, 3] 0 =
      [0, 1, 2, 3].filter
        (passesFilters ⟨ViewMode.all, some 1, SliceDim.y, false⟩
          ⟨2, 2, 1, [1, 2, 3, 4]⟩ none) :=
  ⟨skipFactor_filters_amended.1 ⟨ViewMode.mined, none, SliceDim.x, false⟩ 250000
      (Or.inl (by decide)),
   skipFactor_filters_amended.2.1 SliceDim.y 250000 (by decide),
   skipFactor_filters_amended.2.2.1 5,
   skipFactor_filters_amended.2.2.2 ⟨ViewMode.all, some 1, SliceDim.y, false⟩
     ⟨2, 2, 1, [1, 2, 3, 4]⟩ none 1 [0, 1, 2, 3] 0 rfl⟩

/-- The boundary-block test agrees with the mesh's per-face exposure tests:
a block is a boundary block iff it is mined and some face is exposed (the
neighbor lists of `isBoundaryBlock` and of the mesh's face loop enumerate the
same six model-space neighbors, in the same order). -/
theorem isBoundaryBlock_eq_any_faceExposed (i : Nat) (model : BlockModel)
    (mined : List Bool) :
    isBoundaryBlock i model mined =
      (mined.getD i false &&
        meshFaces.any (faceExposed model mined (getBlockCoords i model.nx model.ny))) := by
  cases h : mined.getD i false with
  | false => rw [isBoundaryBlock, h]; simp
  | true =>
    rw [isBoundaryBlock, h]
    simp only [Bool.not_true, Bool.true_and, Bool.false_eq_true, if_false]
    simp only [meshFaces, faceExposed, List.any_cons, List.any_nil]
    simp only [add_zero, ← sub_eq_add_neg]

/-- The inner face loop of the mesh builder appends six index entries per
exposed face. -/
theorem meshInnerFold_len (model : BlockModel) (mined : List Bool) (c : Coords) :
    ∀ (faces : List (Int × Int × Int)) (acc : Nat × List Nat),
      ((faces.foldl (fun (acc2 : Nat × List Nat) face =>
          if faceExposed model mined c face then
            (acc2.1 + 4,
             acc2.2 ++ [acc2.1, acc2.1 + 1, acc2.1 + 2, acc2.1, acc2.1 + 2, acc2.1 + 3])
          else acc2) acc).2).length
        = acc.2.length + 6 * faces.countP (faceExposed model mined c) := by
  intro faces
  induction faces with
  | nil => intro acc; simp
  | cons f rest ih =>
    intro acc
    rw [List.foldl_cons, List.countP_cons, ih]
    by_cases hf : faceExposed model mined c f = true
    · rw [if_pos hf]
      simp [hf]
      omega
    · rw [if_neg hf]
      simp [hf]

/-- The outer block loop of the mesh builder: the final index-list length is
the initial length plus six entries per exposed face of each boundary
block. -/
theorem meshOuterFold_len (model : BlockModel) (mined : List Bool) :
    ∀ (is : List Nat) (acc : Nat × List Nat),
      ((is.foldl (fun acc2 i =>
          if isBoundaryBlock i model mined then
            meshFaces.foldl (fun (acc3 : Nat × List Nat) face =>
              if faceExposed model mined (getBlockCoords i model.nx model.ny) face then
                (acc3.1 + 4,
                 acc3.2 ++ [acc3.1, acc3.1 + 1, acc3.1 + 2, acc3.1, acc3.1 + 2, acc3.1 + 3])
              else acc3) acc2
          else acc2) acc).2).length
        = acc.2.length + (is.map (fun i =>
            if isBoundaryBlock i model mined then
              6 * meshFaces.countP
                (faceExposed model mined (getBlockCoords i model.nx model.ny))
            else 0)).sum := by
  intro is
  induction is with
  | nil => intro acc; simp
  | cons i rest ih =>
    intro acc
    rw [List.foldl_cons, List.map_cons, List.sum_cons]
    by_cases hb : isBoundaryBlock i model mined = true
    · rw [if_pos hb, if_pos hb, ih, meshInnerFold_len]
      omega
    · rw [if_neg hb, if_neg hb, ih]
      omega

/-- Each block contributes six index entries per exposed face only when it is
mined: an unmined block is never a boundary block, and a mined non-boundary
block has no exposed face. -/
theorem meshWeight_eq (model : BlockModel) (mined : List Bool) (i : Nat) :
    (if isBoundaryBlock i model mined then
        6 * meshFaces.countP
          (faceExposed model mined (getBlockCoords i model.nx model.ny))
      else 0)
    = 6 * (if mined.getD i false then
        (meshFaces.filter
          (faceExposed model mined (getBlockCoords i model.nx model.ny))).length
      else 0) := by
  rw [← List.countP_eq_length_filter]
  by_cases hb : isBoundaryBlock i model mined = true
  · have hmined : mined.getD i false = true := by
      have h := isBoundaryBlock_eq_any_faceExposed i model mined
      rw [hb] at h
      have h2 := h.symm
      rw [Bool.and_eq_true] at h2
      exact h2.1
    rw [if_pos hb, if_pos hmined]
  · rw [if_neg hb]
    cases hm : mined.getD i false with
    | false => simp
    | true =>
      have h := isBoundaryBlock_eq_any_faceExposed i model mined
      rw [hm, Bool.true_and] at h
      have hany : meshFaces.any
          (faceExposed model mined (getBlockCoords i model.nx model.ny)) = false := by
        cases hx : meshFaces.any
            (faceExposed model mined (getBlockCoords i model.nx model.ny)) with
        | false => rfl
        | true => exact absurd (h.trans hx) hb
      have hcnt : meshFaces.countP
          (faceExposed model mined (getBlockCoords i model.nx model.ny)) = 0 := by
        rw [List.countP_eq_zero]
        intro a ha
        have := List.any_eq_false.mp hany a ha
        simpa using this
      simp [hcnt]

/-- C5 counterexample: on the 2×1×1 grid with mask `[1,0]`, one internal face
is exposed (the `+x` face of block 0) and the mesh holds two triangles (the
two halves of that quad), so the triangle count does not equal the exposed
internal face count. -/
theorem surfaceTriangles_eq_faces_cex :
    surfaceTriangleCount ⟨2, 1, 1, [1, -1]⟩ [true, false] = 2 ∧
    exposedInternalFaceCount ⟨2, 1, 1, [1, -1]⟩ [true, false] = 1 ∧
    surfaceTriangleCount ⟨2, 1, 1, [1, -1]⟩ [true, false] ≠
      exposedInternalFaceCount ⟨2, 1, 1, [1, -1]⟩ [true, false] := by decide

/-- C5 amended: the surface mesh holds one quad — two triangles — per
exposed internal face: the triangle count is twice the count of exposed
internal faces (faces of mined blocks whose across-face neighbor is in-bounds
and unmined); faces with out-of-bounds neighbors are never emitted (such a
face is not exposed by `faceExposed`), and each block contributes at most six
quads. -/
theorem surfaceTriangleCount_spec (model : BlockModel) (mined : List Bool) :
    surfaceTriangleCount model mined = 2 * exposedInternalFaceCount model mined ∧
    ∀ i : Nat,
      (meshFaces.filter
        (faceExposed model mined (getBlockCoords i model.nx model.ny))).length ≤ 6 := by
  constructor
  · rw [surfaceTriangleCount, surfaceMeshIndices, meshOuterFold_len]
    have hmap : ((List.range model.values.length).map (fun i =>
        if isBoundaryBlock i model mined then
          6 * meshFaces.countP
            (faceExposed model mined (getBlockCoords i model.nx model.ny))
        else 0))
      = ((List.range model.values.length).map (fun i =>
        6 * (if mined.getD i false then
          (meshFaces.filter
            (faceExposed model mined (getBlockCoords i model.nx model.ny))).length
        else 0))) := by
      apply List.map_congr_left
      intro i _
      exact meshWeight_eq model mined i
    rw [hmap]
    have hsum : ∀ (l : List Nat) (f : Nat → Nat),
        (l.map (fun i => 6 * f i)).sum = 6 * (l.map f).sum := by
      intro l f
      induction l with
      | nil => simp
      | cons a rest ih =>
        rw [List.map_cons, List.sum_cons, List.map_cons, List.sum_cons, ih]
        ring
    rw [hsum]
    rw [exposedInternalFaceCount]
    have h6 : 6 * ((List.range model.values.length).map (fun i =>
        if mined.getD i false then
          (meshFaces.filter
            (faceExposed model mined (getBlockCoords i model.nx model.ny))).length
        else 0)).sum
      = 3 * (2 * ((List.range model.values.length).map (fun i =>
        if mined.getD i false then
          (meshFaces.filter
            (faceExposed model mined (getBlockCoords i model.nx model.ny))).length
        else 0)).sum) := by ring
    rw [List.length_nil, Nat.zero_add, h6, Nat.mul_div_cancel_left _ (by norm_num)]
  · intro i
    exact le_trans (List.length_filter_le _ _) (by rw [meshFaces]; rfl)

/-- The `minValue` component of the statistics fold. -/
theorem statsFold_minValue (minedBlocks? : Option (List Bool)) :
    ∀ (l : List (Nat × Int)) (acc : StatsAcc),
      (l.foldl (statsStep minedBlocks?) acc).minValue
        = l.foldl (fun a p => JSNum.jmin a (JSNum.fin (p.2 : ℚ))) acc.minValue := by
  intro l
  induction l with
  | nil => intro acc; rfl
  | cons p rest ih =>
    intro acc
    rw [List.foldl_cons, List.foldl_cons]
    exact ih _

/-- The `maxValue` component of the statistics fold. -/
theorem statsFold_maxValue (minedBlocks? : Option (List Bool)) :
    ∀ (l : List (Nat × Int)) (acc : StatsAcc),
      (l.foldl (statsStep minedBlocks?) acc).maxValue
        = l.foldl (fun a p => JSNum.jmax a (JSNum.fin (p.2 : ℚ))) acc.maxValue := by
  intro l
  induction l with
  | nil => intro acc; rfl
  | cons p rest ih =>
    intro acc
    rw [List.foldl_cons, List.foldl_cons]
    exact ih _

/-- The `totalValue` component of the statistics fold. -/
theorem statsFold_totalValue (minedBlocks? : Option (List Bool)) :
    ∀ (l : List (Nat × Int)) (acc : StatsAcc),
      (l.foldl (statsStep minedBlocks?) acc).totalValue
        = l.foldl (fun a p => a + JSNum.fin (p.2 : ℚ)) acc.totalValue := by
  intro l
  induction l with
  | nil => intro acc; rfl
  | cons p rest ih =>
    intro acc
    rw [List.foldl_cons, List.foldl_cons]
    exact ih _

/-- The `positiveCount` component of the statistics fold. -/
theorem statsFold_positiveCount (minedBlocks? : Option (List Bool)) :
    ∀ (l : List (Nat × Int)) (acc : StatsAcc),
      (l.foldl (statsStep minedBlocks?) acc).positiveCount
        = acc.positiveCount + l.countP (fun p => decide (0 < p.2)) := by
  intro l
  induction l with
  | nil => intro acc; simp
  | cons p rest ih =>
    intro acc
    rw [List.foldl_cons, List.countP_cons, ih]
    by_cases hp : 0 < p.2 <;> simp [statsStep, hp] <;> omega

/-- The `negativeCount` component of the statistics fold. -/
theorem statsFold_negativeCount (minedBlocks? : Option (List Bool)) :
    ∀ (l : List (Nat × Int)) (acc : StatsAcc),
      (l.foldl (statsStep minedBlocks?) acc).negativeCount
        = acc.negativeCount + l.countP (fun p => decide (p.2 < 0)) := by
  intro l
  induction l with
  | nil => intro acc; simp
  | cons p rest ih =>
    intro acc
    rw [List.foldl_cons, List.countP_cons, ih]
    by_cases hp : p.2 < 0 <;> simp [statsStep, hp] <;> omega

/-- Folding `Math.min` over finite embedded integers is the integer
minimum. -/
theorem foldl_jmin_int :
    ∀ (l : List Int) (a : Int),
      l.foldl (fun (x : JSNum) (v : Int) => JSNum.jmin x (JSNum.fin (v : ℚ))) (JSNum.fin (a : ℚ))
        = JSNum.fin ((l.foldl min a : Int) : ℚ) := by
  intro l
  induction l with
  | nil => intro a; rfl
  | cons v rest ih =>
    intro a
    rw [List.foldl_cons, List.foldl_cons, jmin_fin_fin]
    have hc : (min (a : ℚ) (v : ℚ)) = ((min a v : Int) : ℚ) := by
      push_cast
      rfl
    rw [hc, ih]

/-- Folding `Math.max` over finite embedded integers is the integer
maximum. -/
theorem foldl_jmax_int :
    ∀ (l : List Int) (a : Int),
      l.foldl (fun (x : JSNum) (v : Int) => JSNum.jmax x (JSNum.fin (v : ℚ))) (JSNum.fin (a : ℚ))
        = JSNum.fin ((l.foldl max a : Int) : ℚ) := by
  intro l
  induction l with
  | nil => intro a; rfl
  | cons v rest ih =>
    intro a
    rw [List.foldl_cons, List.foldl_cons, jmax_fin_fin]
    have hc : (max (a : ℚ) (v : ℚ)) = ((max a v : Int) : ℚ) := by
      push_cast
      rfl
    rw [hc, ih]

/-- Folding addition over finite embedded integers is the integer sum. -/
theorem foldl_jadd_int :
    ∀ (l : List Int) (a : Int),
      l.foldl (fun (x : JSNum) (v : Int) => x + JSNum.fin (v : ℚ)) (JSNum.fin (a : ℚ))
        = JSNum.fin (((a + l.sum : Int) : ℚ)) := by
  intro l
  induction l with
  | nil =>
    intro a
    simp
  | cons v rest ih =>
    intro a
    rw [List.foldl_cons, jfin_add]
    have hc : ((a : ℚ) + (v : ℚ)) = (((a + v : Int)) : ℚ) := by push_cast; rfl
    rw [hc, ih]
    congr 1
    norm_cast
    rw [List.sum_cons]
    ring

/-- The integer fold of `min` is a lower bound of its starting point. -/
theorem foldl_min_le_init : ∀ (l : List Int) (a : Int), l.foldl min a ≤ a := by
  intro l
  induction l with
  | nil => intro a; exact le_refl a
  | cons v rest ih =>
    intro a
    rw [List.foldl_cons]
    exact le_trans (ih _) (min_le_left _ _)

/-- The integer fold of `min` is a lower bound of every element. -/
theorem foldl_min_le_mem :
    ∀ (l : List Int) (a v : Int), v ∈ l → l.foldl min a ≤ v := by
  intro l
  induction l with
  | nil => intro a v hv; exact absurd hv (List.not_mem_nil v)
  | cons w rest ih =>
    intro a v hv
    rw [List.foldl_cons]
    rcases List.mem_cons.mp hv with rfl | hv
    · exact le_trans (foldl_min_le_init rest _) (min_le_right _ _)
    · exact ih _ v hv

/-- The integer fold of `min` is its starting point or some element. -/
theorem foldl_min_mem :
    ∀ (l : List Int) (a : Int), l.foldl min a = a ∨ l.foldl min a ∈ l := by
  intro l
  induction l with
  | nil => intro a; exact Or.inl rfl
  | cons w rest ih =>
    intro a
    rw [List.foldl_cons]
    rcases ih (min a w) with h | h
    · rcases min_cases a w with ⟨he, -⟩ | ⟨he, -⟩
      · exact Or.inl (h.trans he)
      · exact Or.inr (by rw [h, he]; exact List.mem_cons_self w rest)
    · exact Or.inr (List.mem_cons_of_mem w h)

/-- The integer fold of `max` is an upper bound of its starting point. -/
theorem foldl_max_le_init : ∀ (l : List Int) (a : Int), a ≤ l.foldl max a := by
  intro l
  induction l with
  | nil => intro a; exact le_refl a
  | cons v rest ih =>
    intro a
    rw [List.foldl_cons]
    exact le_trans (le_max_left _ _) (ih _)

/-- The integer fold of `max` is an upper bound of every element. -/
theorem foldl_max_le_mem :
    ∀ (l : List Int) (a v : Int), v ∈ l → v ≤ l.foldl max a := by
  intro l
  induction l with
  | nil => intro a v hv; exact absurd hv (List.not_mem_nil v)
  | cons w rest ih =>
    intro a v hv
    rw [List.foldl_cons]
    rcases List.mem_cons.mp hv with rfl | hv
    · exact le_trans (le_max_right _ _) (foldl_max_le_init rest _)
    · exact ih _ v hv

/-- The integer fold of `max` is its starting point or some element. -/
theorem foldl_max_mem :
    ∀ (l : List Int) (a : Int), l.foldl max a = a ∨ l.foldl max a ∈ l := by
  intro l
  induction l with
  | nil => intro a; exact Or.inl rfl
  | cons w rest ih =>
    intro a
    rw [List.foldl_cons]
    rcases ih (max a w) with h | h
    · rcases max_cases a w with ⟨he, -⟩ | ⟨he, -⟩
      · exact Or.inl (h.trans he)
      · exact Or.inr (by rw [h, he]; exact List.mem_cons_self w rest)
    · exact Or.inr (List.mem_cons_of_mem w h)

/-- The statistics fold over the enumerated values is a fold over the values
themselves, for any step function that only uses the value component. -/
theorem enumFold_eq_valuesFold (g : JSNum → ℚ → JSNum) (l : List Int) (a : JSNum) :
    l.enum.foldl (fun x p => g x ((p.2 : Int) : ℚ)) a
      = l.foldl (fun x w => g x ((w : Int) : ℚ)) a := by
  conv_rhs => rw [← List.enum_map_snd l]
  rw [List.foldl_map]

/-- C8 counterexample: `calculateStats` does not fail on an empty model — it
has no error path at all and returns `minValue = Infinity`,
`maxValue = -Infinity`, `maxAbsValue = Infinity`, sum `0`,
`average = 0/0 = NaN` and zero counts. -/
theorem calculateStats_empty_cex :
    calculateStats ⟨1, 1, 1, []⟩ none =
      ⟨JSNum.posInf, JSNum.negInf, JSNum.posInf, JSNum.fin 0, JSNum.nan,
       0, 0, JSNum.fin 0, 0⟩ := by
  show Stats.mk _ _ _ _ _ _ _ _ _ = _
  have havg : JSNum.fin 0 / JSNum.fin ((0 : Nat) : ℚ) = JSNum.nan := by
    rw [jdiv_def]
    norm_num [JSNum.div]
  rw [Stats.mk.injEq]
  exact ⟨rfl, rfl, rfl, rfl, havg, rfl, rfl, rfl, rfl⟩

/-- C8 amended: `calculateStats` never fails.  On an empty model it returns
the degenerate record (`Infinity`, `-Infinity`, `Infinity`, sum 0, `NaN`
average, zero counts); on every non-empty model, the single pass returns the
minimum and maximum of the values, `maxAbsValue = max(|min|, |max|)`, the
sum, `average = sum / count`, and the positive and negative counts. -/
theorem calculateStats_spec :
    (∀ (model : BlockModel) (minedBlocks? : Option (List Bool)),
      model.values = [] →
      calculateStats model minedBlocks? =
        ⟨JSNum.posInf, JSNum.negInf, JSNum.posInf, JSNum.fin 0, JSNum.nan,
         0, 0, JSNum.fin 0, 0⟩) ∧
    (∀ (model : BlockModel) (minedBlocks? : Option (List Bool)),
      model.values ≠ [] →
      ∃ mn mx : Int, mn ∈ model.values ∧ mx ∈ model.values ∧
        (∀ v ∈ model.values, mn ≤ v ∧ v ≤ mx) ∧
        (calculateStats model minedBlocks?).minValue = JSNum.fin (mn : ℚ) ∧
        (calculateStats model minedBlocks?).maxValue = JSNum.fin (mx : ℚ) ∧
        (calculateStats model minedBlocks?).maxAbsValue
          = JSNum.fin ((max |mn| |mx| : Int) : ℚ) ∧
        (calculateStats model minedBlocks?).totalValue
          = JSNum.fin ((model.values.sum : Int) : ℚ) ∧
        (calculateStats model minedBlocks?).averageValue
          = JSNum.fin (((model.values.sum : Int) : ℚ) / (model.values.length : ℚ)) ∧
        (calculateStats model minedBlocks?).positiveCount
          = model.values.countP (fun w => decide (0 < w)) ∧
        (calculateStats model minedBlocks?).negativeCount
          = model.values.countP (fun w => decide (w < 0))) := by
  constructor
  · intro model minedBlocks? h
    rcases model with ⟨nx, ny, nz, vals⟩
    simp only at h
    subst h
    show Stats.mk _ _ _ _ _ _ _ _ _ = _
    have havg : JSNum.fin 0 / JSNum.fin ((0 : Nat) : ℚ) = JSNum.nan := by
      rw [jdiv_def]
      norm_num [JSNum.div]
    rw [Stats.mk.injEq]
    exact ⟨rfl, rfl, rfl, rfl, havg, rfl, rfl, rfl, rfl⟩
  · intro model minedBlocks? h
    rcases hval : model.values with _ | ⟨v, rest⟩
    · exact absurd hval h
    -- the raw fold accumulator
    have hacc : ∀ s : Stats, s = calculateStats model minedBlocks? →
        s.minValue = (model.values.enum.foldl (statsStep minedBlocks?)
          ⟨JSNum.posInf, JSNum.negInf, JSNum.fin 0, 0, 0, JSNum.fin 0, 0⟩).minValue :=
      fun s hs => by rw [hs]; rfl
    -- minValue
    have hmin : (calculateStats model minedBlocks?).minValue
        = JSNum.fin ((rest.foldl min v : Int) : ℚ) := by
      have h1 : (calculateStats model minedBlocks?).minValue
          = (model.values.enum.foldl (statsStep minedBlocks?)
            ⟨JSNum.posInf, JSNum.negInf, JSNum.fin 0, 0, 0, JSNum.fin 0, 0⟩).minValue := rfl
      rw [h1, statsFold_minValue,
        enumFold_eq_valuesFold (fun x q => JSNum.jmin x (JSNum.fin q)) model.values
          JSNum.posInf,
        hval, List.foldl_cons, jmin_posInf_fin, foldl_jmin_int]
    -- maxValue
    have hmax : (calculateStats model minedBlocks?).maxValue
        = JSNum.fin ((rest.foldl max v : Int) : ℚ) := by
      have h1 : (calculateStats model minedBlocks?).maxValue
          = (model.values.enum.foldl (statsStep minedBlocks?)
            ⟨JSNum.posInf, JSNum.negInf, JSNum.fin 0, 0, 0, JSNum.fin 0, 0⟩).maxValue := rfl
      rw [h1, statsFold_maxValue,
        enumFold_eq_valuesFold (fun x q => JSNum.jmax x (JSNum.fin q)) model.values
          JSNum.negInf,
        hval, List.foldl_cons, jmax_negInf_fin, foldl_jmax_int]
    -- totalValue
    have htot : (calculateStats model minedBlocks?).totalValue
        = JSNum.fin ((model.values.sum : Int) : ℚ) := by
      have h1 : (calculateStats model minedBlocks?).totalValue
          = (model.values.enum.foldl (statsStep minedBlocks?)
            ⟨JSNum.posInf, JSNum.negInf, JSNum.fin 0, 0, 0, JSNum.fin 0, 0⟩).totalValue := rfl
      rw [h1, statsFold_totalValue,
        enumFold_eq_valuesFold (fun x q => x + JSNum.fin q) model.values (JSNum.fin 0)]
      have h0 : (JSNum.fin 0 : JSNum) = JSNum.fin (((0 : Int)) : ℚ) := by norm_num
      rw [h0, foldl_jadd_int]
      norm_num
    rw [hval] at htot
    -- length is nonzero
    have hlenpos : 0 < model.values.length := by
      rw [hval]
      simp
    have hlenq : ((model.values.length : ℚ)) ≠ 0 := by
      have := Nat.pos_iff_ne_zero.mp hlenpos
      exact_mod_cast this
    refine ⟨rest.foldl min v, rest.foldl max v, ?_, ?_, ?_, hmin, hmax, ?_, htot, ?_, ?_, ?_⟩
    · rcases foldl_min_mem rest v with hm | hm
      · rw [hm]; exact List.mem_cons_self v rest
      · exact List.mem_cons_of_mem v hm
    · rcases foldl_max_mem rest v with hm | hm
      · rw [hm]; exact List.mem_cons_self v rest
      · exact List.mem_cons_of_mem v hm
    · intro w hw
      rcases List.mem_cons.mp hw with rfl | hw
      · exact ⟨foldl_min_le_init rest w, foldl_max_le_init rest w⟩
      · exact ⟨foldl_min_le_mem rest v w hw, foldl_max_le_mem rest v w hw⟩
    · have h1 : (calculateStats model minedBlocks?).maxAbsValue
          = JSNum.jmax (calculateStats model minedBlocks?).minValue.abs
              (calculateStats model minedBlocks?).maxValue.abs := rfl
      rw [h1, hmin, hmax, jfin_abs, jfin_abs, jmax_fin_fin]
      congr 1
      push_cast
      rfl
    · have h1 : (calculateStats model minedBlocks?).averageValue
          = (calculateStats model minedBlocks?).totalValue
              / JSNum.fin ((model.values.length : ℚ)) := rfl
      rw [h1, htot, jfin_div _ _ hlenq, hval]
    · have h1 : (calculateStats model minedBlocks?).positiveCount
          = (model.values.enum.foldl (statsStep minedBlocks?)
            ⟨JSNum.posInf, JSNum.negInf, JSNum.fin 0, 0, 0, JSNum.fin 0, 0⟩).positiveCount := rfl
      rw [h1, statsFold_positiveCount]
      dsimp only
      have h2 : model.values.enum.countP (fun p => decide (0 < p.2))
          = model.values.countP (fun w => decide (0 < w)) := by
        conv_rhs => rw [← List.enum_map_snd model.values]
        rw [List.countP_map]
        rfl
      rw [h2, hval]
      omega
    · have h1 : (calculateStats model minedBlocks?).negativeCount
          = (model.values.enum.foldl (statsStep minedBlocks?)
            ⟨JSNum.posInf, JSNum.negInf, JSNum.fin 0, 0, 0, JSNum.fin 0, 0⟩).negativeCount := rfl
      rw [h1, statsFold_negativeCount]
      dsimp only
      have h2 : model.values.enum.countP (fun p => decide (p.2 < 0))
          = model.values.countP (fun w => decide (w < 0)) := by
        conv_rhs => rw [← List.enum_map_snd model.values]
        rw [List.countP_map]
        rfl
      rw [h2, hval]
      omega

/-- Witness for C8 at concrete inputs: the empty model and the 2×2×1
scenario model with values `[10, -5, 3, -1]`. -/
theorem calculateStats_spec_witness :
    calculateStats ⟨1, 1, 1, []⟩ none =
      ⟨JSNum.posInf, JSNum.negInf, JSNum.posInf, JSNum.fin 0, JSNum.nan,
       0, 0, JSNum.fin 0, 0⟩ ∧
    (∃ mn mx : Int, mn ∈ ([10, -5, 3, -1] : List Int) ∧
      mx ∈ ([10, -5, 3, -1] : List Int) ∧
      (∀ v ∈ ([10, -5, 3, -1] : List Int), mn ≤ v ∧ v ≤ mx) ∧
      (calculateStats ⟨2, 2, 1, [10, -5, 3, -1]⟩ none).minValue
        = JSNum.fin (mn : ℚ) ∧
      (calculateStats ⟨2, 2, 1, [10, -5, 3, -1]⟩ none).maxValue
        = JSNum.fin (mx : ℚ) ∧
      (calculateStats ⟨2, 2, 1, [10, -5, 3, -1]⟩ none).maxAbsValue
        = JSNum.fin ((max |mn| |mx| : Int) : ℚ) ∧
      (calculateStats ⟨2, 2, 1, [10, -5, 3, -1]⟩ none).totalValue
        = JSNum.fin ((([10, -5, 3, -1] : List Int).sum : Int) : ℚ) ∧
      (calculateStats ⟨2, 2, 1, [10, -5, 3, -1]⟩ none).averageValue
        = JSNum.fin (((([10, -5, 3, -1] : List Int).sum : Int) : ℚ)
            / (([10, -5, 3, -1] : List Int).length : ℚ)) ∧
      (calculateStats ⟨2, 2, 1, [10, -5, 3, -1]⟩ none).positiveCount
        = ([10, -5, 3, -1] : List Int).countP (fun w => decide (0 < w)) ∧
      (calculateStats ⟨2, 2, 1, [10, -5, 3, -1]⟩ none).negativeCount
        = ([10, -5, 3, -1] : List Int).countP (fun w => decide (w < 0))) :=
  ⟨calculateStats_spec.1 ⟨1, 1, 1, []⟩ none rfl,
   calculateStats_spec.2 ⟨2, 2, 1, [10, -5, 3, -1]⟩ none (by decide)⟩

/-- C9: `runMineflow` counts one `numBlocksMined` per valid output line (a
line whose `parseInt` is a number within `[0, numBlocks)`), with no
deduplication — so a repeated in-range index makes `numBlocksMined` strictly
exceed the number of set entries of `minedBlocks` — and out-of-range or
non-numeric lines are skipped without error. -/
theorem processSolverOutput_spec :
    (∀ (lines : List String) (numBlocks : Nat),
      (processSolverOutput lines numBlocks).2 = lines.countP (fun line =>
        match jsParseInt (jsTrim line) with
        | some blockIndex => decide (0 ≤ blockIndex ∧ blockIndex < (numBlocks : Int))
        | none => false)) ∧
    (processSolverOutput [("0"), ("0")] 1).2 = 2 ∧
    (processSolverOutput [("0"), ("0")] 1).1.count true = 1 ∧
    (processSolverOutput [("0"), ("0")] 1).1.count true
      < (processSolverOutput [("0"), ("0")] 1).2 ∧
    processSolverOutput [("abc"), ("-3"), ("7")] 5 = (List.replicate 5 false, 0) := by
  refine ⟨?_, ?_, ?_, ?_, ?_⟩
  · intro lines numBlocks
    rw [processSolverOutput]
    have key : ∀ (ls : List String) (acc : List Bool × Nat),
        (ls.foldl (fun (acc : List Bool × Nat) line =>
          match jsParseInt (jsTrim line) with
          | some blockIndex =>
            if 0 ≤ blockIndex ∧ blockIndex < (numBlocks : Int) then
              (acc.1.set blockIndex.toNat true, acc.2 + 1)
            else acc
          | none => acc) acc).2
        = acc.2 + ls.countP (fun line =>
            match jsParseInt (jsTrim line) with
            | some blockIndex =>
              decide (0 ≤ blockIndex ∧ blockIndex < (numBlocks : Int))
            | none => false) := by
      intro ls
      induction ls with
      | nil => intro acc; simp
      | cons line rest ih =>
        intro acc
        rw [List.foldl_cons, List.countP_cons, ih]
        cases hp : jsParseInt (jsTrim line) with
        | none => simp [hp]
        | some bi =>
          by_cases hin : 0 ≤ bi ∧ bi < (numBlocks : Int)
          · simp only [hp, if_pos hin, hin, decide_eq_true_eq]
            simp
            omega
          · simp only [hp, if_neg hin]
            simp [hin]
    rw [key]
    dsimp only
    omega
  · decide
  · decide
  · decide
  · decide

/-- A decimal digit is not whitespace. -/
theorem not_whitespace_of_isDigit (c : Char) (h : c.isDigit = true) :
    c.isWhitespace = false := by
  cases hw : c.isWhitespace with
  | false => rfl
  | true =>
    exfalso
    simp [Char.isWhitespace] at hw
    rcases hw with ((rfl | rfl) | rfl) | rfl <;> simp [Char.isDigit] at h

/-- C10: `parseDatFile` rejects a line only when `parseInt` of the trimmed
line is `NaN`; any line whose trimmed text begins with an optionally-signed
decimal digit parses to a number (trailing characters discarded), so `"3.9"`
is accepted and stored as the integer 3. -/
theorem parseDatFile_malformed_spec :
    (∀ (lines : List String) (i k : Nat) (raw : String),
      parseValues lines i = .error (.malformedValue k raw) →
      jsParseInt (jsTrim raw) = none) ∧
    (∀ s : String, beginsWithSignedDigit (jsTrim s) = true →
      jsParseInt (jsTrim s) ≠ none) ∧
    parseDatFile ("3.9") 1 1 1 = .ok ⟨1, 1, 1, [3]⟩ := by
  refine ⟨?_, ?_, ?_⟩
  · intro lines
    induction lines with
    | nil =>
      intro i k raw h
      rw [parseValues] at h
      exact absurd h (by simp)
    | cons line rest ih =>
      intro i k raw h
      rw [parseValues] at h
      cases hp : jsParseInt (jsTrim line) with
      | none =>
        rw [hp] at h
        simp only [Except.error.injEq, ParseError.malformedValue.injEq] at h
        rcases h with ⟨-, h2⟩
        rw [← h2]
        exact hp
      | some v =>
        rw [hp] at h
        cases hrec : parseValues rest (i + 1) with
        | error e =>
          rw [hrec] at h
          simp only [Except.error.injEq] at h
          rw [h] at hrec
          exact ih (i + 1) k raw hrec
        | ok vs =>
          rw [hrec] at h
          exact absurd h (by simp)
  · intro s hb
    cases hcs : (jsTrim s).data with
    | nil =>
      rw [beginsWithSignedDigit, hcs] at hb
      exact absurd hb (by simp)
    | cons c cs =>
      rw [beginsWithSignedDigit, hcs] at hb
      intro hcon
      rw [jsParseInt, hcs] at hcon
      by_cases hminus : c = '-'
      · subst hminus
        cases cs with
        | nil => simp at hb
        | cons c2 cs2 =>
          simp only at hb
          simp [List.dropWhile_cons, List.takeWhile_cons, hb] at hcon
      · by_cases hplus : c = '+'
        · subst hplus
          cases cs with
          | nil => simp at hb
          | cons c2 cs2 =>
            simp only at hb
            simp [List.dropWhile_cons, List.takeWhile_cons, hb] at hcon
        · simp only [hminus, hplus] at hb
          have hws := not_whitespace_of_isDigit c hb
          simp [List.dropWhile_cons, List.takeWhile_cons, hws, hminus, hplus, hb]
            at hcon
  · rfl

/-- Witness for C10 at concrete inputs: the non-numeric line `"xx"` is the
malformed line of its file and indeed has a `NaN` `parseInt`, while the
signed-digit line `"-42abc"` parses. -/
theorem parseDatFile_malformed_spec_witness :
    jsParseInt (jsTrim ("xx")) = none ∧ jsParseInt (jsTrim ("-42abc")) ≠ none :=
  ⟨parseDatFile_malformed_spec.1 [("xx")] 0 1 ("xx") rfl,
   parseDatFile_malformed_spec.2.1 ("-42abc") (by decide)⟩

/-- Witness for C5's amended statement at a concrete input: on the 2×2×1
grid with mask `[1,1,0,1]` the mesh holds 2 quads = 4 triangles for the 2
exposed internal faces. -/
theorem surfaceTriangleCount_spec_witness :
    surfaceTriangleCount ⟨2, 2, 1, [10, -5, 3, -1]⟩ [true, true, false, true]
      = 2 * exposedInternalFaceCount ⟨2, 2, 1, [10, -5, 3, -1]⟩
          [true, true, false, true] ∧
    (meshFaces.filter
      (faceExposed ⟨2, 2, 1, [10, -5, 3, -1]⟩ [true, true, false, true]
        (getBlockCoords 0 2 2))).length ≤ 6 :=
  ⟨(surfaceTriangleCount_spec ⟨2, 2, 1, [10, -5, 3, -1]⟩
      [true, true, false, true]).1,
   (surfaceTriangleCount_spec ⟨2, 2, 1, [10, -5, 3, -1]⟩
      [true, true, false, true]).2 0⟩

/-- Witness for C9 at a concrete input: two lines repeating index 0 of a
1-block grid give `numBlocksMined = 2`, the count of valid lines. -/
theorem processSolverOutput_spec_witness :
    (processSolverOutput [("0"), ("0")] 1).2
      = ([("0"), ("0")] : List String).countP (fun line =>
          match jsParseInt (jsTrim line) with
          | some blockIndex => decide (0 ≤ blockIndex ∧ blockIndex < ((1 : Nat) : Int))
          | none => false) :=
  processSolverOutput_spec.1 [("0"), ("0")] 1

end MineFlow
